import Mathlib

/-
Verification model of `LoadBusTimetable.py` (Fore-LoadBusTimetablesIntoAimsun).

The script is a shallowly-embedded batch program: each Python function becomes a
pure Lean function.  External collaborators (the Aimsun object catalog and the
shortest-path manager) are passed in as function parameters:
  * catalog stop lookup: `lookup : String → Bool` (does `findObjectByExternalId`
    return a non-None object?);
  * stop-to-section resolution: `getSection : String → Nat` (the id of the
    section hosting a stop; total, because callers only pass stops that
    resolved in the catalog);
  * shortest-path oracle: `getPath : Nat → Nat → Option (List Nat)`, where
    `none` models the query raising an exception and `some []` models
    "no connecting path";
  * stop display names: `getName : String → String`.
Machine state that Python mutates (the list of created public-transport lines,
the global `error_log`) is threaded explicitly.  A Python function that can
raise an exception which escapes it is modelled with an `Option` result.
-/

namespace LoadBusTimetable

/-- A route leg as built by `find_route_legs`: the Python dict
`{"Route": ..., "Stops": ...}` with a list of section ids and a list of
`(stop_eid, time)` pairs. -/
structure Leg where
  Route : List Nat
  Stops : List (String × String)
deriving Repr, DecidableEq

/-- The mutable state of the loop in `find_route_legs` (lines 230-259):
the legs accumulated so far, the working route, the working stop buffer,
and the global `error_log` list the warnings are appended to. -/
structure FRLState where
  legs : List Leg
  route : List Nat
  route_stops : List (String × String)
  error_log : List String
deriving Repr, DecidableEq

/-- The `PATH LENGTH WARNING` message built at line 239 of the source. -/
def pathWarning (s1 s2 : String) (n : Nat) : String :=
  "PATH LENGTH WARNING: A calculated path between stop " ++ s1 ++ " and stop "
    ++ s2 ++ " is " ++ toString n ++ " sections long. This could be inaccurate."

/-- One iteration of the inner `for link in path` loop (lines 252-257):
append `link` unless it equals the route's current last element. -/
def appendLink (route : List Nat) (link : Nat) : List Nat :=
  if route.length = 0 then route ++ [link]
  else if link ≠ route.getLastD 0 then route ++ [link]
  else route

/-- The whole `for link in path` loop: fold `appendLink` over the returned
path, starting from the current working route. -/
def appendLinks (route path : List Nat) : List Nat :=
  path.foldl appendLink route

/-- One iteration of `for i, section in enumerate(sections)` (lines 232-259).
The whole body sits in a `try`/`except: pass`, so the two failure points —
`sections[i + 1]` raising `IndexError` at the last index, and `getPath`
raising — leave the state untouched. -/
def frl_step (getPath : Nat → Nat → Option (List Nat))
    (stops : List (String × String)) (sections : List Nat)
    (st : FRLState) (i : Nat) : FRLState :=
  match sections.get? (i + 1) with
  | none => st
  | some nextSection =>
    match getPath (sections.getD i 0) nextSection with
    | none => st
    | some path =>
      let path_len := path.length
      let route_stops := st.route_stops ++ [stops.getD i ("", "")]
      let error_log :=
        if path_len > 20 then
          let warning :=
            pathWarning (stops.getD i ("", "")).1 (stops.getD (i + 1) ("", "")).1 path_len
          if warning ∈ st.error_log then st.error_log else st.error_log ++ [warning]
        else st.error_log
      if path.length = 0 then
        { legs := st.legs ++ [{ Route := st.route, Stops := route_stops }],
          route := [], route_stops := [], error_log := error_log }
      else
        { st with route := appendLinks st.route path, route_stops := route_stops,
                  error_log := error_log }

/-- Model of `find_route_legs(stops)` (lines 219-267).  Returns the legs together with
the updated `error_log`; `none` models the uncaught `IndexError` that
`stops[-1]` raises on an empty input. -/
def find_route_legs (getSection : String → Nat)
    (getPath : Nat → Nat → Option (List Nat))
    (error_log : List String) (stops : List (String × String)) :
    Option (List Leg × List String) :=
  let sections := stops.map (fun stop => getSection stop.1)
  let st := (List.range sections.length).foldl (frl_step getPath stops sections)
    { legs := [], route := [], route_stops := [], error_log := error_log }
  match stops.getLast? with
  | none => none
  | some lastStop =>
    some (st.legs ++ [{ Route := st.route, Stops := st.route_stops ++ [lastStop] }],
      st.error_log)

/-- Invariant of the `find_route_legs` loop state used for the
no-adjacent-duplicate property: every finalized leg's route and the working
route are free of consecutive equal links. -/
def chainInv (st : FRLState) : Prop :=
  (∀ leg ∈ st.legs, leg.Route.Chain' (fun a b => a ≠ b))
  ∧ st.route.Chain' (fun a b => a ≠ b)

/-- The closed list of bus-station ATCO codes from `match_stops_in_model`
(lines 46-48). -/
def bus_station_ids : List String :=
  ["450030204", "450030188", "450030189", "450030190", "450030182", "450030183",
   "450030184", "450030185", "450030186", "450030196", "450030197", "450030191",
   "450030192", "450030187", "450030194", "450030193", "450030195", "450030202",
   "450030203", "450030198", "450030199", "450030200", "450030201", "450030331"]

/-- Model of `match_stops_in_model(stops)` (lines 29-59): keep a stop whose id resolves
in the catalog, fold a bus-station id to the shared `'Bus Station'` stop with
its time kept, drop everything else. -/
def match_stops_in_model (lookup : String → Bool)
    (stops : List (String × String)) : List (String × String) :=
  stops.foldl
    (fun model_route stop =>
      if lookup stop.1 then model_route ++ [stop]
      else if stop.1 ∈ bus_station_ids then model_route ++ [("Bus Station", stop.2)]
      else model_route)
    []

/-- Specification-side single-stop resolver, stated from the spec's words
("kept unchanged" / "replaced by the shared synthetic hub stop with the
original visit time preserved" / "dropped"), to be compared with the
source-side `match_stops_in_model`. -/
def resolveStop_spec (lookup : String → Bool) (stop : String × String) :
    Option (String × String) :=
  if lookup stop.1 then some stop
  else if stop.1 ∈ bus_station_ids then some ("Bus Station", stop.2)
  else none

/-- The per-stop body of `set_dwell_times` (lines 207-217): a 0 mean becomes
20 and a 0 deviation becomes 10, each condition checked independently. -/
def normalize_dwell (stop_time : Int × Int) : Int × Int :=
  let mean := if stop_time.1 = 0 then 20 else stop_time.1
  let deviation := if stop_time.2 = 0 then 10 else stop_time.2
  (mean, deviation)

/-- Model of `set_dwell_times()` (lines 188-217): the four nested loops (public lines →
timetables → schedules → bus stops) rewrite every `(mean, deviation)` pair via
`normalize_dwell`.  The dwell state is modelled positionally: a schedule is its
list of per-stop `(mean, deviation)` pairs. -/
def set_dwell_times (lines : List (List (List (List (Int × Int))))) :
    List (List (List (List (Int × Int)))) :=
  lines.map (List.map (List.map (List.map normalize_dwell)))

/-- Python `str.strip(chars)`: remove leading and trailing characters that are
members of `chars` (not the literal substring). -/
def pyStrip (chars : List Char) (s : String) : String :=
  String.mk (((s.toList.dropWhile (fun c => c ∈ chars)).reverse.dropWhile
    (fun c => c ∈ chars)).reverse)

/-- The character set of `.strip('.csv')` at line 82. -/
def stripChars : List Char := ['.', 'c', 's', 'v']

/-- Model of `get_route_name(file, first_stop, last_stop)` (lines 61-86), taking the
file's basename and the catalog's display-name function as parameters. -/
def get_route_name (file_basename : String) (getName : String → String)
    (first_stop last_stop : String) : String :=
  let filename := pyStrip stripChars file_basename
  filename ++ ": " ++ getName first_stop ++ " [" ++ first_stop ++ "] to "
    ++ getName last_stop ++ " [" ++ last_stop ++ "]"

/-- A schedule: the departure times accumulated by `add_departure`, in the
order they were added. -/
structure Schedule where
  departures : List String
deriving Repr, DecidableEq

/-- A timetable: its list of schedules (`create_pt_line` makes exactly one). -/
structure Timetable where
  schedules : List Schedule
deriving Repr, DecidableEq

/-- A public-transport line (`GKPublicLine`) as this script populates it:
name, route, raw leg stops, the positional stop slots computed by
`calculate_pt_leg`, and its timetables. -/
structure Line where
  name : String
  route : List Nat
  stops : List (String × String)
  stopSlots : List (Option (String × String))
  timetables : List Timetable
deriving Repr, DecidableEq

/-- Model of `calculate_pt_leg(pt_line, leg)` (lines 88-128): for every link of the
route, the first stop of the leg hosted on that link, `none` when no stop
lands there. -/
def calculate_pt_leg (getSection : String → Nat) (leg : Leg) :
    List (Option (String × String)) :=
  leg.Route.map (fun link => leg.Stops.find? (fun stop => getSection stop.1 == link))

/-- Model of `create_pt_line(name, leg)` (lines 130-161): a fresh line carrying the
leg's route and stops, with exactly one timetable holding exactly one
(initially empty) schedule. -/
def create_pt_line (getSection : String → Nat) (name : String) (leg : Leg) : Line :=
  { name := name, route := leg.Route, stops := leg.Stops,
    stopSlots := calculate_pt_leg getSection leg,
    timetables := [{ schedules := [{ departures := [] }] }] }

/-- Model of `add_departure(pt_line, time)` (lines 163-186): append one departure to
the line's first timetable's first schedule.  (If either list were empty the
Python indexing would raise; such lines are never produced by this script, and
the model then returns the line unchanged.) -/
def add_departure (pt_line : Line) (time : String) : Line :=
  match pt_line.timetables with
  | [] => pt_line
  | timetable :: tts =>
    match timetable.schedules with
    | [] => pt_line
    | schedule :: schs =>
      { pt_line with
        timetables :=
          { timetable with
            schedules := { schedule with departures := schedule.departures ++ [time] }
              :: schs } :: tts }

/-- The catalog's `findByName` restricted to the lines this script created:
first line in creation order with the given name. -/
def findByName (reg : List Line) (name : String) : Option Line :=
  reg.find? (fun l => l.name == name)

/-- Replacing the first line with a given name by its updated version — the
registry effect of mutating the object `findByName` returned. -/
def updateByName (reg : List Line) (name : String) (f : Line → Line) : List Line :=
  match reg with
  | [] => []
  | l :: rest => if l.name == name then f l :: rest else l :: updateByName rest name f

/-- The name computed for a leg at line 313:
`get_route_name(csv, leg["Stops"][0][0], leg["Stops"][-1][0])`. -/
def legName (file_basename : String) (getName : String → String) (leg : Leg) : String :=
  get_route_name file_basename getName (leg.Stops.headD ("", "")).1
    (leg.Stops.getLastD ("", "")).1

/-- The departure time taken for a leg at line 319: `leg["Stops"][0][1]`. -/
def legFirstTime (leg : Leg) : String := (leg.Stops.headD ("", "")).2

/-- The body of `for leg in route_legs` in `get_timetable` (lines 309-319):
skip legs with fewer than 2 stops, otherwise look the line up by name,
create it if absent, and add one departure. -/
def process_leg (getSection : String → Nat) (file_basename : String)
    (getName : String → String) (reg : List Line) (leg : Leg) : List Line :=
  if leg.Stops.length < 2 then reg
  else
    let name := legName file_basename getName leg
    match findByName reg name with
    | some _ => updateByName reg name (fun l => add_departure l (legFirstTime leg))
    | none => reg ++ [add_departure (create_pt_line getSection name leg) (legFirstTime leg)]

/-- Processing a whole sequence of legs (possibly spanning several trips of
the same source file) against the line registry. -/
def process_legs (getSection : String → Nat) (file_basename : String)
    (getName : String → String) (reg : List Line) (legs : List Leg) : List Line :=
  legs.foldl (process_leg getSection file_basename getName) reg

/-- The departures of a line's single schedule (empty when the line does not
have the one-timetable/one-schedule shape this script always creates). -/
def departuresOf (l : Line) : List String :=
  match l.timetables with
  | [timetable] =>
    match timetable.schedules with
    | [schedule] => schedule.departures
    | _ => []
  | _ => []

/-- Does the line have exactly one timetable with exactly one schedule? -/
def oneTT (l : Line) : Bool :=
  match l.timetables with
  | [timetable] => timetable.schedules.length == 1
  | _ => false

/-- Specification-side departure list for a given line name: one departure per
addressable (≥ 2 stops) leg whose computed name matches, timed by that leg's
first stop's visit time, in processing order. -/
def departures_spec (file_basename : String)
    (getName : String → String) (n : String) (legs : List Leg) : List String :=
  ((legs.filter (fun leg =>
      decide (2 ≤ leg.Stops.length) && (legName file_basename getName leg == n))).map
    legFirstTime)

/-- Invariant of the line registry maintained by `process_leg`: every created
line has the one-timetable/one-schedule shape, and no name is ever carried by
two lines. -/
def regInv (reg : List Line) : Prop :=
  (∀ l ∈ reg, oneTT l = true)
  ∧ ∀ n : String, (reg.filter (fun l => l.name == n)).length ≤ 1

/-- One departure-accumulation step on the departure lists of the lines with
a fixed name: appending to the (unique) existing schedule, or creating the
first one. -/
def viewStep (v : List (List String)) (t : String) : List (List String) :=
  match v with
  | [] => [[t]]
  | d :: rest => (d ++ [t]) :: rest

/-- The departure a single leg contributes to the lines named `n`: one entry
(its first stop's visit time) when it is addressable (≥ 2 stops) and its
computed name is `n`, nothing otherwise. -/
def legContrib (file_basename : String) (getName : String → String) (n : String)
    (leg : Leg) : List String :=
  if 2 ≤ leg.Stops.length ∧ legName file_basename getName leg = n then [legFirstTime leg]
  else []

/-- The `CSV FILE ERROR` message built at line 396 of the source. -/
def csvFileError (csv e : String) : String :=
  "CSV FILE ERROR: Could not parse " ++ csv ++ ". " ++ e ++ "."

/-- The driver loop over csv files (lines 390-397).  `gt` models
`get_timetable` over an abstract world state `σ` (catalog, registry, log
file system...): it returns the state reached — Python's side effects persist
even when an exception escapes — together with `some e` when it raised.
On failure the wrapped message is inserted at the front of the error log. -/
def main_loop {σ : Type} (gt : String → σ → σ × Option String)
    (files : List String) (st : σ) (error_log : List String) : σ × List String :=
  files.foldl
    (fun p csv =>
      match gt csv p.1 with
      | (st2, none) => (st2, p.2)
      | (st2, some e) => (st2, csvFileError csv e :: p.2))
    (st, error_log)

/-- Model of `output_errors(errors)` (lines 341-367).  First component: the lines of
the log file, `none` when no file is written; second component: the printed
status message. -/
def output_errors (date clock log_path : String) (errors : List String) :
    Option (List String) × String :=
  let num := errors.length
  if num > 1 then
    (some ([date, clock, "", toString errors.length ++ " errors", ""] ++ errors),
     "Load Bus Timetable script complete!\n" ++ toString num
       ++ " warnings output to " ++ log_path ++ ".")
  else
    (none, "Load Bus Timetable complete!\nNo warnings reported.")



/-- Concrete stop-to-section map for the spec's worked example: A, B, C sit on
sections 1, 2, 3. -/
def gsC1 : String → Nat := fun s => if s = "A" then 1 else if s = "B" then 2 else 3

/-- Concrete shortest-path oracle for the spec's worked example: a 3-link path
for the pair A→B, an empty path (no path) for B→C. -/
def gpC1 : Nat → Nat → Option (List Nat) :=
  fun a b =>
    if a = 1 ∧ b = 2 then some [10, 11, 12]
    else if a = 2 ∧ b = 3 then some [] else none

/-- The spec's worked-example trip. -/
def tripC1 : List (String × String) :=
  [("A", "08:00:00"), ("B", "08:05:00"), ("C", "08:10:00")]

/-- C1 (counterexample): at the claim's exact scenario (the oracle `gpC1`
returns a 3-link path for A→B and an empty path for B→C), `find_route_legs`
returns Leg2 with stops `[C]` only — not `[B, C]` as claimed: stop B was
already appended to Leg1's buffer before Leg1 was finalized. -/
theorem C1_counterexample :
    find_route_legs gsC1 gpC1 [] tripC1 =
      some ([{ Route := [10, 11, 12], Stops := [("A", "08:00:00"), ("B", "08:05:00")] },
             { Route := [], Stops := [("C", "08:10:00")] }], [])
    ∧ ¬ (find_route_legs gsC1 gpC1 [] tripC1 =
      some ([{ Route := [10, 11, 12], Stops := [("A", "08:00:00"), ("B", "08:05:00")] },
             { Route := [], Stops := [("B", "08:05:00"), ("C", "08:10:00")] }], [])) := by
  refine ⟨rfl, by decide⟩

/-- C1 (amended): for every oracle that returns a duplicate-free 3-link path
for A→B and an empty path for B→C, the trip yields exactly two Legs:
Leg1 with the 3-link route and stops [A, B], and Leg2 with an empty route and
stops [C] only (stop count 1, so Leg2 is discarded downstream, not retained). -/
theorem C1_amended_two_legs :
    ∀ (gp : Nat → Nat → Option (List Nat)) (l1 l2 l3 : Nat),
    l1 ≠ l2 → l2 ≠ l3 → gp 1 2 = some [l1, l2, l3] → gp 2 3 = some [] →
    find_route_legs gsC1 gp [] tripC1 =
      some ([{ Route := [l1, l2, l3], Stops := [("A", "08:00:00"), ("B", "08:05:00")] },
             { Route := [], Stops := [("C", "08:10:00")] }], []) := by
  intro gp l1 l2 l3 h12 h23 hAB hBC
  have h21 : ¬ (l2 = l1) := fun h => h12 h.symm
  have h32 : ¬ (l3 = l2) := fun h => h23 h.symm
  simp +decide [find_route_legs, tripC1, gsC1, frl_step, List.range_succ, hAB, hBC,
    appendLinks, appendLink, h21, h32]

/-- C1 (witness): the amended theorem applied to the concrete oracle `gpC1`
with links 10, 11, 12. -/
theorem C1_witness :
    find_route_legs gsC1 gpC1 [] tripC1 =
      some ([{ Route := [10, 11, 12], Stops := [("A", "08:00:00"), ("B", "08:05:00")] },
             { Route := [], Stops := [("C", "08:10:00")] }], []) :=
  C1_amended_two_legs gpC1 10 11 12 (by decide) (by decide) rfl rfl

/-- C2: a failure of `get_timetable` on one csv file is caught at the trip
boundary: the driver loop wraps it as a `CSV FILE ERROR`, inserts it at the
front of the error log, keeps the state the failing call reached (no
rollback of lines or departures already created), and continues with the
remaining files. -/
theorem C2_trip_boundary_isolation :
    ∀ {σ : Type} (gt : String → σ → σ × Option String)
    (csv : String) (rest : List String) (st st2 : σ) (log : List String) (e : String),
    gt csv st = (st2, some e) →
    main_loop gt (csv :: rest) st log = main_loop gt rest st2 (csvFileError csv e :: log) := by
  intro σ gt csv rest st st2 log e h
  simp [main_loop, h]

/-- C2 (witness): the boundary theorem at a concrete failing step over state
`Nat`. -/
theorem C2_witness :
    main_loop (fun _ n => (n + 1, some "boom")) ["a", "b"] 0 []
      = main_loop (fun _ n => (n + 1, some "boom")) ["b"] 1 [csvFileError "a" "boom"] :=
  C2_trip_boundary_isolation (fun _ n => (n + 1, some "boom")) "a" ["b"] 0 1 [] "boom" rfl

/-- C4: when the shortest-path oracle fails (raises) for the pair (i, i+1),
the loop body of `find_route_legs` leaves its whole state unchanged: no error
is logged, stop i is not appended, the working route is untouched. -/
theorem C4_pair_skip_silent :
    ∀ (gp : Nat → Nat → Option (List Nat)) (stops : List (String × String))
    (sections : List Nat) (st : FRLState) (i s : Nat),
    sections.get? (i + 1) = some s →
    gp (sections.getD i 0) s = none →
    frl_step gp stops sections st i = st := by
  intro gp stops sections st i s h1 h2
  simp only [List.get?_eq_getElem?] at h1
  simp only [List.getD_eq_getElem?_getD] at h2
  simp [frl_step, h1, h2]

/-- C4 (witness): the pair-skip theorem at a concretely failing oracle. -/
theorem C4_witness :
    frl_step (fun _ _ => none) [("X", "1"), ("Y", "2")] [0, 0]
      { legs := [], route := [], route_stops := [], error_log := [] } 0
      = { legs := [], route := [], route_stops := [], error_log := [] } :=
  C4_pair_skip_silent (fun _ _ => none) [("X", "1"), ("Y", "2")] [0, 0]
    { legs := [], route := [], route_stops := [], error_log := [] } 0 0 rfl rfl

/-- C6: a leg with fewer than 2 stops is never promoted to a line — the
lookup-or-create and departure-append code is skipped — and a trip with
exactly one resolved stop produces exactly one single-stop leg. -/
theorem C6_short_legs_discarded :
    (∀ (sec : String → Nat) (fn : String) (g : String → String)
        (reg : List Line) (leg : Leg),
      leg.Stops.length < 2 → process_leg sec fn g reg leg = reg)
    ∧ (∀ (gs : String → Nat) (gp : Nat → Nat → Option (List Nat)) (log : List String)
        (s : String × String),
        find_route_legs gs gp log [s] = some ([{ Route := [], Stops := [s] }], log)) := by
  constructor
  · intro sec fn g reg leg h
    simp [process_leg, h]
  · intro gs gp log s
    rfl

/-- C6 (witness): the discard theorem at a concrete single-stop leg and trip. -/
theorem C6_witness :
    process_leg (fun _ => 0) "f" (fun s => s) [] { Route := [], Stops := [("X", "1")] } = []
    ∧ find_route_legs (fun _ => 0) (fun _ _ => some []) [] [("X", "1")]
        = some ([{ Route := [], Stops := [("X", "1")] }], []) :=
  ⟨C6_short_legs_discarded.1 (fun _ => 0) "f" (fun s => s) []
      { Route := [], Stops := [("X", "1")] } (by decide),
   C6_short_legs_discarded.2 (fun _ => 0) (fun _ _ => some []) [] ("X", "1")⟩

theorem match_stops_foldl_general (lookup : String → Bool) :
    ∀ (stops acc : List (String × String)),
      stops.foldl
        (fun model_route stop =>
          if lookup stop.1 then model_route ++ [stop]
          else if stop.1 ∈ bus_station_ids then model_route ++ [("Bus Station", stop.2)]
          else model_route)
        acc
      = acc ++ stops.filterMap (resolveStop_spec lookup) := by
  intro stops
  induction stops with
  | nil => intro acc; simp
  | cons s rest ih =>
    intro acc
    simp only [List.foldl_cons, List.filterMap_cons]
    by_cases h1 : lookup s.1
    · simp [h1, resolveStop_spec, ih]
    · by_cases h2 : s.1 ∈ bus_station_ids
      · simp [h1, h2, resolveStop_spec, ih]
      · simp [h1, h2, resolveStop_spec, ih]

theorem resolved_times_sublist (lookup : String → Bool) :
    ∀ stops : List (String × String),
      ((stops.filterMap (resolveStop_spec lookup)).map Prod.snd).Sublist
        (stops.map Prod.snd) := by
  intro stops
  induction stops with
  | nil => simp
  | cons s rest ih =>
    simp only [List.filterMap_cons, List.map_cons]
    by_cases h1 : lookup s.1
    · simp only [resolveStop_spec, h1, if_true, List.map_cons]
      exact ih.cons₂ s.2
    · by_cases h2 : s.1 ∈ bus_station_ids
      · simp only [resolveStop_spec, h1, if_false, h2, if_true, List.map_cons]
        exact ih.cons₂ s.2
      · simp only [resolveStop_spec, h1, h2, if_false, List.map_cons]
        exact ih.cons s.2

/-- C7: the stop resolver equals the per-visit spec resolver mapped over the
trip (direct hits kept unchanged, hub identifiers folded to the shared
`Bus Station` stop with the time preserved, everything else dropped with no
error — the result is total, and empty output is an ordinary value), and the
output's visit times form a subsequence of the input's, so the output is the
input's subsequence in the same relative order up to the hub substitution. -/
theorem C7_stop_resolver :
    ∀ (lookup : String → Bool) (stops : List (String × String)),
      match_stops_in_model lookup stops = stops.filterMap (resolveStop_spec lookup)
      ∧ ((match_stops_in_model lookup stops).map Prod.snd).Sublist
          (stops.map Prod.snd) := by
  intro lookup stops
  have h := match_stops_foldl_general lookup stops []
  constructor
  · simpa [match_stops_in_model] using h
  · have h2 : match_stops_in_model lookup stops = stops.filterMap (resolveStop_spec lookup) := by
      simpa [match_stops_in_model] using h
    rw [h2]
    exact resolved_times_sublist lookup stops

theorem normalize_dwell_idem (p : Int × Int) :
    normalize_dwell (normalize_dwell p) = normalize_dwell p := by
  rcases p with ⟨m, d⟩
  by_cases hm : m = 0 <;> by_cases hd : d = 0 <;> simp [normalize_dwell, hm, hd]

theorem map_idem_of_idem {α : Type} (f : α → α) (h : ∀ x, f (f x) = f x) :
    ∀ l : List α, List.map f (List.map f l) = List.map f l := by
  intro l
  rw [List.map_map]
  exact List.map_congr_left (fun a _ => h a)

/-- C8: the dwell-time normalizer is idempotent — a second run changes
nothing — and one run maps a 0 mean to 20 and a 0 deviation to 10, each
condition checked independently, leaving nonzero values unchanged. -/
theorem C8_dwell_idempotent :
    ∀ (L : List (List (List (List (Int × Int))))) (m d : Int),
      set_dwell_times (set_dwell_times L) = set_dwell_times L
      ∧ (normalize_dwell (0, d)).1 = 20
      ∧ (normalize_dwell (m, 0)).2 = 10
      ∧ (m ≠ 0 → (normalize_dwell (m, d)).1 = m)
      ∧ (d ≠ 0 → (normalize_dwell (m, d)).2 = d) := by
  intro L m d
  refine ⟨?_, by simp [normalize_dwell], by simp [normalize_dwell],
    fun hm => by simp [normalize_dwell, hm], fun hd => by simp [normalize_dwell, hd]⟩
  have h1 := map_idem_of_idem _ normalize_dwell_idem
  have h2 := map_idem_of_idem _ h1
  have h3 := map_idem_of_idem _ h2
  exact map_idem_of_idem _ h3 L

/-- C8 (witness): idempotence and the pointwise behaviour at concrete dwell
states. -/
theorem C8_witness :
    set_dwell_times (set_dwell_times [[[[(0, 0), (3, 4)]]]])
        = set_dwell_times [[[[(0, 0), (3, 4)]]]]
    ∧ (normalize_dwell (3, 4)).1 = 3 ∧ (normalize_dwell (3, 4)).2 = 4 := by
  have h := C8_dwell_idempotent [[[[(0, 0), (3, 4)]]]] 3 4
  exact ⟨h.1, h.2.2.2.1 (by decide), h.2.2.2.2 (by decide)⟩

/-- C9: `output_errors` writes a log file iff more than one message
accumulated; with at most one message it writes nothing and reports the plain
no-warnings status; with n ≥ 2 messages the file is the date line, the time
line, a blank line, the count line "n errors", a blank line, then one message
per line. -/
theorem C9_output_errors :
    ∀ (date clock log_path : String) (errors : List String),
      ((output_errors date clock log_path errors).1 ≠ none ↔ 1 < errors.length)
      ∧ (errors.length ≤ 1 →
          output_errors date clock log_path errors
            = (none, "Load Bus Timetable complete!\nNo warnings reported."))
      ∧ (2 ≤ errors.length →
          (output_errors date clock log_path errors).1
            = some ([date, clock, "", toString errors.length ++ " errors", ""] ++ errors)) := by
  intro date clock log_path errors
  by_cases h : 1 < errors.length
  · refine ⟨by simp [output_errors, h], fun hle => by omega, fun _ => by simp [output_errors, h]⟩
  · refine ⟨by simp [output_errors, h], fun _ => by simp [output_errors, h], fun h2 => by omega⟩

/-- C9 (witness): a one-message log writes no file; a two-message log writes
the header, the count line "2 errors", and the two messages. -/
theorem C9_witness :
    output_errors "01/01/2020" "12:00" "Error Log.txt" ["only"]
        = (none, "Load Bus Timetable complete!\nNo warnings reported.")
    ∧ (output_errors "01/01/2020" "12:00" "Error Log.txt" ["e1", "e2"]).1
        = some ["01/01/2020", "12:00", "", "2 errors", "", "e1", "e2"] := by
  have h1 := C9_output_errors "01/01/2020" "12:00" "Error Log.txt" ["only"]
  have h2 := C9_output_errors "01/01/2020" "12:00" "Error Log.txt" ["e1", "e2"]
  exact ⟨h1.2.1 (by decide), h2.2.2 (by decide)⟩

/-- C10: the filename prefix of a line name is the basename with all leading
and trailing characters from the set of '.', 'c', 's', 'v' removed — Python
`str.strip(".csv")` semantics, not extension removal: "services.csv" yields
the prefix "ervice" (not "services"), and the two distinct filenames
"services.csv" and "ervices.csv" compute the same line name. -/
theorem C10_strip_semantics :
    pyStrip stripChars "services.csv" = "ervice"
    ∧ "ervice" ≠ "services"
    ∧ get_route_name "services.csv" (fun s => s) "F1" "L1"
        = get_route_name "ervices.csv" (fun s => s) "F1" "L1"
    ∧ "services.csv" ≠ "ervices.csv" := by
  refine ⟨rfl, by decide, rfl, by decide⟩

theorem appendLink_chain (route : List Nat) (link : Nat)
    (h : route.Chain' (fun a b => a ≠ b)) :
    (appendLink route link).Chain' (fun a b => a ≠ b) := by
  unfold appendLink
  by_cases h0 : route.length = 0
  · rw [if_pos h0, List.length_eq_zero.mp h0]
    simp
  · rw [if_neg h0]
    by_cases hl : link ≠ route.getLastD 0
    · rw [if_pos hl, List.chain'_append]
      refine ⟨h, List.chain'_singleton link, ?_⟩
      intro x hx y hy
      have hgx : route.getLast? = some x := Option.mem_def.mp hx
      have hy2 : link = y := by
        have hh := Option.mem_def.mp hy
        simpa using hh
      have hDx : route.getLastD 0 = x := by
        rw [List.getLastD_eq_getLast? 0 route, hgx]
        rfl
      rw [hDx] at hl
      subst hy2
      exact fun hxy => hl hxy.symm
    · rw [if_neg hl]
      exact h

theorem appendLinks_chain (path : List Nat) : ∀ route : List Nat,
    route.Chain' (fun a b => a ≠ b) →
    (appendLinks route path).Chain' (fun a b => a ≠ b) := by
  induction path with
  | nil => intro route h; exact h
  | cons l ls ih =>
    intro route h
    simp only [appendLinks, List.foldl_cons]
    exact ih (appendLink route l) (appendLink_chain route l h)

theorem frl_step_chainInv (gp : Nat → Nat → Option (List Nat))
    (stops : List (String × String)) (sections : List Nat)
    (st : FRLState) (i : Nat) (h : chainInv st) :
    chainInv (frl_step gp stops sections st i) := by
  unfold frl_step
  split
  · exact h
  split
  · exact h
  split
  · constructor
    · intro leg hleg
      rcases List.mem_append.mp hleg with hmem | hmem
      · exact h.1 leg hmem
      · simp at hmem
        subst hmem
        exact h.2
    · simp
  · refine ⟨h.1, ?_⟩
    exact appendLinks_chain _ st.route h.2

theorem foldl_frl_chainInv (gp : Nat → Nat → Option (List Nat))
    (stops : List (String × String)) (sections : List Nat) :
    ∀ (idxs : List Nat) (st : FRLState),
    chainInv st → chainInv (idxs.foldl (frl_step gp stops sections) st) := by
  intro idxs
  induction idxs with
  | nil => intro st h; exact h
  | cons i rest ih =>
    intro st h
    simp only [List.foldl_cons]
    exact ih _ (frl_step_chainInv gp stops sections st i h)

/-- C5: every leg produced by `find_route_legs` has a route with no two
consecutive equal links, whatever link sequences the shortest-path oracle
returns: the inner loop's adjacent-duplicate elimination maintains the
invariant across concatenated per-pair paths. -/
theorem C5_no_adjacent_duplicate_links :
    ∀ (gs : String → Nat) (gp : Nat → Nat → Option (List Nat)) (log : List String)
      (stops : List (String × String)) (out : List Leg × List String),
      find_route_legs gs gp log stops = some out →
      ∀ leg ∈ out.1, leg.Route.Chain' (fun a b => a ≠ b) := by
  intro gs gp log stops out hout leg hleg
  unfold find_route_legs at hout
  cases hlast : stops.getLast? with
  | none =>
    rw [hlast] at hout
    simp at hout
  | some lastStop =>
    rw [hlast] at hout
    simp only [List.length_map, Option.some.injEq] at hout
    have hinv := foldl_frl_chainInv gp stops (stops.map fun stop => gs stop.1)
      (List.range stops.length)
      { legs := [], route := [], route_stops := [], error_log := log }
      ⟨by intro l hl; simp at hl, by simp⟩
    rw [← hout] at hleg
    rcases List.mem_append.mp hleg with hmem | hmem
    · exact hinv.1 leg hmem
    · simp at hmem
      subst hmem
      exact hinv.2

/-- C5 (witness): the invariant theorem applied to a concrete run whose legs
are the two legs of a no-path scenario. -/
theorem C5_witness :
    List.Chain' (fun a b : Nat => a ≠ b)
      (Leg.Route { Route := [], Stops := [("X", "1")] }) :=
  C5_no_adjacent_duplicate_links (fun _ => 0) (fun _ _ => some []) []
    [("X", "1"), ("Y", "2")]
    ([{ Route := [], Stops := [("X", "1")] }, { Route := [], Stops := [("Y", "2")] }], [])
    rfl { Route := [], Stops := [("X", "1")] } (List.mem_cons_self _ _)

theorem add_departure_name (l : Line) (t : String) : (add_departure l t).name = l.name := by
  unfold add_departure
  split
  · rfl
  split
  · rfl
  · rfl

theorem oneTT_shape (l : Line) (h : oneTT l = true) :
    ∃ tt : Timetable, ∃ sch : Schedule,
      l.timetables = [tt] ∧ tt.schedules = [sch] := by
  unfold oneTT at h
  split at h
  · next tt heq =>
    obtain ⟨sch, hsch⟩ := List.length_eq_one.mp (by simpa using h)
    exact ⟨tt, sch, heq, hsch⟩
  · exact absurd h (by simp)

theorem oneTT_add (l : Line) (t : String) (h : oneTT l = true) :
    oneTT (add_departure l t) = true := by
  obtain ⟨tt, sch, htt, hsch⟩ := oneTT_shape l h
  simp [add_departure, htt, hsch, oneTT]

theorem departuresOf_add (l : Line) (t : String) (h : oneTT l = true) :
    departuresOf (add_departure l t) = departuresOf l ++ [t] := by
  obtain ⟨tt, sch, htt, hsch⟩ := oneTT_shape l h
  simp [add_departure, htt, hsch, departuresOf]

theorem oneTT_create (sec : String → Nat) (n : String) (leg : Leg) :
    oneTT (create_pt_line sec n leg) = true := rfl

theorem create_pt_line_name (sec : String → Nat) (n : String) (leg : Leg) :
    (create_pt_line sec n leg).name = n := rfl

theorem departuresOf_create (sec : String → Nat) (n : String) (leg : Leg) :
    departuresOf (create_pt_line sec n leg) = [] := rfl

theorem updateByName_filter_ne (f : Line → Line) (hf : ∀ l, (f l).name = l.name)
    (m n : String) (hmn : ¬ (m = n)) :
    ∀ reg : List Line,
      (updateByName reg m f).filter (fun l => l.name == n)
        = reg.filter (fun l => l.name == n) := by
  intro reg
  induction reg with
  | nil => rfl
  | cons a rest ih =>
    by_cases ha : (a.name == m) = true
    · have ham : a.name = m := by simpa using ha
      have hfa : ((f a).name == n) = false := by
        rw [hf a, ham]
        simpa using hmn
      have haa : (a.name == n) = false := by
        rw [ham]
        simpa using hmn
      simp [updateByName, ha, List.filter_cons, hfa, haa]
    · simp only [updateByName, ha, Bool.false_eq_true, if_false, List.filter_cons]
      rw [ih]

theorem updateByName_filter_eq (f : Line → Line) (hf : ∀ l, (f l).name = l.name)
    (n : String) :
    ∀ (reg : List Line) (x : Line),
      reg.filter (fun l => l.name == n) = [x] →
      (updateByName reg n f).filter (fun l => l.name == n) = [f x] := by
  intro reg
  induction reg with
  | nil => intro x hx; simp at hx
  | cons a rest ih =>
    intro x hx
    by_cases ha : (a.name == n) = true
    · simp only [List.filter_cons, ha, if_true] at hx
      have hax : a = x := (List.cons.injEq _ _ _ _).mp hx |>.1
      have hrest : rest.filter (fun l => l.name == n) = [] :=
        (List.cons.injEq _ _ _ _).mp hx |>.2
      have hfa : ((f a).name == n) = true := by
        rw [hf a]
        exact ha
      simp only [updateByName, ha, if_true, List.filter_cons, hfa]
      rw [hrest, hax]
    · have ha2 : (a.name == n) = false := by simpa using ha
      simp only [List.filter_cons, ha2, Bool.false_eq_true, if_false] at hx
      simp only [updateByName, ha2, Bool.false_eq_true, if_false, List.filter_cons]
      exact ih x hx

theorem mem_updateByName (f : Line → Line) (m : String) :
    ∀ (reg : List Line) (x : Line), x ∈ updateByName reg m f →
      x ∈ reg ∨ ∃ l, l ∈ reg ∧ x = f l := by
  intro reg
  induction reg with
  | nil => intro x hx; simp [updateByName] at hx
  | cons a rest ih =>
    intro x hx
    by_cases ha : (a.name == m) = true
    · simp only [updateByName, ha, if_true] at hx
      rcases List.mem_cons.mp hx with hx | hx
      · exact Or.inr ⟨a, List.mem_cons_self a rest, hx⟩
      · exact Or.inl (List.mem_cons_of_mem a hx)
    · simp only [updateByName, ha, Bool.false_eq_true, if_false] at hx
      rcases List.mem_cons.mp hx with hx | hx
      · exact Or.inl (hx ▸ List.mem_cons_self a rest)
      · rcases ih x hx with h1 | ⟨l, hl, hxl⟩
        · exact Or.inl (List.mem_cons_of_mem a h1)
        · exact Or.inr ⟨l, List.mem_cons_of_mem a hl, hxl⟩

theorem process_leg_step (sec : String → Nat) (fn : String) (g : String → String)
    (reg : List Line) (leg : Leg) (h : regInv reg) :
    regInv (process_leg sec fn g reg leg)
    ∧ ∀ n : String,
        ((process_leg sec fn g reg leg).filter (fun l => l.name == n)).map departuresOf
          = (legContrib fn g n leg).foldl viewStep
              ((reg.filter (fun l => l.name == n)).map departuresOf) := by
  by_cases hlen : leg.Stops.length < 2
  · have hc : ∀ n, legContrib fn g n leg = [] := by
      intro n
      unfold legContrib
      rw [if_neg]
      rintro ⟨h2, _⟩
      omega
    constructor
    · simpa [process_leg, hlen] using h
    · intro n
      simp [process_leg, hlen, hc n]
  · have hle2 : 2 ≤ leg.Stops.length := by omega
    have hname : ∀ n, legContrib fn g n leg
        = if legName fn g leg = n then [legFirstTime leg] else [] := by
      intro n
      unfold legContrib
      by_cases hn : legName fn g leg = n
      · rw [if_pos ⟨hle2, hn⟩, if_pos hn]
      · rw [if_neg (fun hh => hn hh.2), if_neg hn]
    have hf : ∀ l, (add_departure l (legFirstTime leg)).name = l.name :=
      fun l => add_departure_name l (legFirstTime leg)
    cases hfind : findByName reg (legName fn g leg) with
    | some l0 =>
      have hstep : process_leg sec fn g reg leg
          = updateByName reg (legName fn g leg)
              (fun l => add_departure l (legFirstTime leg)) := by
        simp [process_leg, hlen, hfind]
      have hfind2 : List.find? (fun l => l.name == legName fn g leg) reg = some l0 := hfind
      have hmem0 : l0 ∈ reg := List.mem_of_find?_eq_some hfind2
      have hp0 := List.find?_some hfind2
      have hfil_ne : reg.filter (fun l => l.name == legName fn g leg) ≠ [] := by
        intro he
        have hin : l0 ∈ reg.filter (fun l => l.name == legName fn g leg) :=
          List.mem_filter.mpr ⟨hmem0, hp0⟩
        rw [he] at hin
        exact absurd hin (List.not_mem_nil l0)
      obtain ⟨x, hx⟩ : ∃ x, reg.filter (fun l => l.name == legName fn g leg) = [x] := by
        have hle := h.2 (legName fn g leg)
        cases hq : reg.filter (fun l => l.name == legName fn g leg) with
        | nil => exact absurd hq hfil_ne
        | cons a rest =>
          rw [hq] at hle
          simp only [List.length_cons] at hle
          have hrest : rest = [] := List.length_eq_zero.mp (by omega)
          exact ⟨a, by rw [hrest]⟩
      have hxmem : x ∈ reg :=
        List.mem_of_mem_filter (hx ▸ List.mem_cons_self x [])
      have hxone : oneTT x = true := h.1 x hxmem
      rw [hstep]
      refine ⟨⟨?_, ?_⟩, ?_⟩
      · intro l hl
        rcases mem_updateByName _ _ reg l hl with hl | ⟨l1, hl1, rfl⟩
        · exact h.1 l hl
        · exact oneTT_add l1 (legFirstTime leg) (h.1 l1 hl1)
      · intro n
        by_cases hn : legName fn g leg = n
        · rw [← hn, updateByName_filter_eq _ hf _ reg x hx]
          simp
        · rw [updateByName_filter_ne _ hf _ _ hn reg]
          exact h.2 n
      · intro n
        by_cases hn : legName fn g leg = n
        · rw [← hn, updateByName_filter_eq _ hf _ reg x hx, hx, hname]
          simp [viewStep, departuresOf_add x (legFirstTime leg) hxone]
        · rw [updateByName_filter_ne _ hf _ _ hn reg, hname, if_neg hn]
          rfl
    | none =>
      have hstep : process_leg sec fn g reg leg
          = reg ++ [add_departure (create_pt_line sec (legName fn g leg) leg)
              (legFirstTime leg)] := by
        simp [process_leg, hlen, hfind]
      have hfind2 : List.find? (fun l => l.name == legName fn g leg) reg = none := hfind
      have hnil : reg.filter (fun l => l.name == legName fn g leg) = [] := by
        rw [List.filter_eq_nil_iff]
        exact List.find?_eq_none.mp hfind2
      have hnewname : (add_departure (create_pt_line sec (legName fn g leg) leg)
          (legFirstTime leg)).name = legName fn g leg := by
        rw [add_departure_name, create_pt_line_name]
      have hnewone : oneTT (add_departure (create_pt_line sec (legName fn g leg) leg)
          (legFirstTime leg)) = true :=
        oneTT_add _ _ (oneTT_create sec (legName fn g leg) leg)
      have hnewdep : departuresOf (add_departure (create_pt_line sec (legName fn g leg) leg)
          (legFirstTime leg)) = [legFirstTime leg] := by
        rw [departuresOf_add _ _ (oneTT_create sec (legName fn g leg) leg),
          departuresOf_create]
        rfl
      rw [hstep]
      refine ⟨⟨?_, ?_⟩, ?_⟩
      · intro l hl
        rcases List.mem_append.mp hl with hl | hl
        · exact h.1 l hl
        · rw [List.mem_singleton.mp hl]
          exact hnewone
      · intro n
        rw [List.filter_append]
        by_cases hn : legName fn g leg = n
        · rw [← hn, hnil]
          simp [hnewname]
        · have : ((add_departure (create_pt_line sec (legName fn g leg) leg)
              (legFirstTime leg)).name == n) = false := by
            rw [hnewname]
            simpa using hn
          simp only [List.filter_cons, this, Bool.false_eq_true, if_false,
            List.filter_nil, List.append_nil, List.nil_eq]
          exact h.2 n
      · intro n
        rw [List.filter_append, hname]
        by_cases hn : legName fn g leg = n
        · rw [← hn, hnil]
          simp [hnewname, hnewdep, viewStep]
        · have : ((add_departure (create_pt_line sec (legName fn g leg) leg)
              (legFirstTime leg)).name == n) = false := by
            rw [hnewname]
            simpa using hn
          simp [this, hn]

theorem process_legs_step (sec : String → Nat) (fn : String) (g : String → String) :
    ∀ (legs : List Leg) (reg : List Line), regInv reg →
      regInv (process_legs sec fn g reg legs)
      ∧ ∀ n : String,
          ((process_legs sec fn g reg legs).filter (fun l => l.name == n)).map departuresOf
            = ((legs.map (legContrib fn g n)).flatten).foldl viewStep
                ((reg.filter (fun l => l.name == n)).map departuresOf) := by
  intro legs
  induction legs with
  | nil =>
    intro reg h
    exact ⟨h, fun n => rfl⟩
  | cons leg rest ih =>
    intro reg h
    have hstep := process_leg_step sec fn g reg leg h
    have hrest := ih (process_leg sec fn g reg leg) hstep.1
    refine ⟨?_, ?_⟩
    · simpa [process_legs, List.foldl_cons] using hrest.1
    · intro n
      have h1 : ((process_legs sec fn g reg (leg :: rest)).filter
            (fun l => l.name == n)).map departuresOf
          = ((rest.map (legContrib fn g n)).flatten).foldl viewStep
              (((process_leg sec fn g reg leg).filter (fun l => l.name == n)).map
                departuresOf) := by
        simpa [process_legs, List.foldl_cons] using hrest.2 n
      rw [h1, hstep.2 n]
      simp [List.foldl_append]

theorem contribs_flatten_eq (fn : String) (g : String → String) (n : String) :
    ∀ legs : List Leg,
      (legs.map (legContrib fn g n)).flatten = departures_spec fn g n legs := by
  intro legs
  induction legs with
  | nil => rfl
  | cons leg rest ih =>
    simp only [List.map_cons, List.flatten_cons, departures_spec, List.filter_cons]
    by_cases hc : (decide (2 ≤ leg.Stops.length)
        && (legName fn g leg == n)) = true
    · have h2 : 2 ≤ leg.Stops.length ∧ legName fn g leg = n := by
        simpa using hc
      rw [hc]
      simp only [if_true]
      rw [legContrib, if_pos h2]
      simp only [List.map_cons, List.singleton_append]
      rw [show ((rest.map (legContrib fn g n)).flatten) = departures_spec fn g n rest from ih]
      rfl
    · have h2 : ¬ (2 ≤ leg.Stops.length ∧ legName fn g leg = n) := by
        intro hx
        exact hc (by simp [hx.1, hx.2])
      rw [legContrib, if_neg h2]
      simp only [List.nil_append]
      rw [ih]
      simp only [Bool.not_eq_true] at hc
      simp only [hc, Bool.false_eq_true, if_false]
      rfl

theorem viewStep_foldl_single :
    ∀ (ts : List String) (d : List String), ts.foldl viewStep [d] = [d ++ ts] := by
  intro ts
  induction ts with
  | nil => intro d; simp
  | cons u us ih =>
    intro d
    simp only [List.foldl_cons, viewStep]
    rw [ih (d ++ [u])]
    simp

theorem viewStep_foldl_nil :
    ∀ ts : List String, ts.foldl viewStep [] = if ts = [] then [] else [ts] := by
  intro ts
  cases ts with
  | nil => rfl
  | cons t rest =>
    simp only [List.foldl_cons, viewStep]
    rw [viewStep_foldl_single rest [t]]
    simp

/-- C3: for any leg sequence processed against an empty registry and any line
name, at most one line ever carries that name; it exists exactly when some
addressable leg computes it, it has exactly one timetable with exactly one
schedule, and its schedule's departures are the first-stop visit times of the
matching legs, one per leg, in processing order. -/
theorem C3_line_dedup_departures :
    ∀ (sec : String → Nat) (fn : String) (g : String → String)
      (legs : List Leg) (n : String),
      ((process_legs sec fn g [] legs).filter (fun l => l.name == n)).map departuresOf
        = (if departures_spec fn g n legs = [] then []
           else [departures_spec fn g n legs])
      ∧ ∀ l ∈ process_legs sec fn g [] legs, oneTT l = true := by
  intro sec fn g legs n
  have hinv : regInv ([] : List Line) := ⟨by intro l hl; simp at hl, by intro m; simp⟩
  have h := process_legs_step sec fn g legs [] hinv
  refine ⟨?_, h.1.1⟩
  have h2 := h.2 n
  rw [contribs_flatten_eq] at h2
  simpa [viewStep_foldl_nil] using h2

end LoadBusTimetable
